import Mathlib

/-!
Shallow embedding of the EAST-style scene-text detection post-processing
pipeline of `detect.py`: polygon validity filtering (`is_valid_poly`),
polygon restoration under rotation (`Get_Rotation_Matrix`, `restore_polys`),
box assembly (`get_boxes`), coordinate rescaling (`adjust_ratio`), image
resizing (`resize_img`) and the per-box result-file line format of
`detect_dataset`.

Coordinates are modelled over a linear ordered field `K` (exact arithmetic in
place of floating point).  The trigonometric functions of the math library
are passed as explicit function parameters `cosF`, `sinF`, instantiated with
`Real.cos` and `Real.sin` where trigonometric identities matter.  External
collaborators (numpy argsort, the lanms NMS library, PIL image resizing, the
neural network) are modelled as opaque function parameters, or by the
observable attributes the code reads.  numpy in-place updates (`valid_pos *=
scale`, `boxes[...] /= ratio`) are modelled by returning the final contents
of the mutated buffer alongside the function result.
-/

section ValidityFilter

variable {K : Type} [LinearOrderedField K]

/-- Predicate for one column (corner) `i` of the restored 2×4 polygon `res`:
its x component `res[0,i]` is outside `[0, score_cols*scale)` or its y
component `res[1,i]` is outside `[0, score_rows*scale)`.  This is exactly the
loop condition of `is_valid_poly` (detect.py, lines 66-68). -/
def corner_out (res : Fin 2 → Fin 4 → K) (score_rows score_cols : ℕ) (scale : K)
    (i : Fin 4) : Prop :=
  res 0 i < 0 ∨ (score_cols : K) * scale ≤ res 0 i ∨
    res 1 i < 0 ∨ (score_rows : K) * scale ≤ res 1 i

instance (res : Fin 2 → Fin 4 → K) (score_rows score_cols : ℕ) (scale : K) (i : Fin 4) :
    Decidable (corner_out res score_rows score_cols scale i) :=
  inferInstanceAs (Decidable (res 0 i < 0 ∨ (score_cols : K) * scale ≤ res 0 i ∨
    res 1 i < 0 ∨ (score_rows : K) * scale ≤ res 1 i))

/-- Embedding of `is_valid_poly(res, score_shape, scale)` (detect.py, lines
56-70).  `res` is the restored polygon as a 2×4 matrix (row 0 the x
components, row 1 the y components), `score_shape = (score_rows, score_cols)`
the score-map shape.  The loop runs `i` over `range(res.shape[1]) = range(4)`
and increments `cnt` whenever `res[0,i] < 0 or res[0,i] >= score_shape[1] *
scale or res[1,i] < 0 or res[1,i] >= score_shape[0] * scale`; the polygon is
accepted iff `cnt <= 1`. -/
def is_valid_poly (res : Fin 2 → Fin 4 → K) (score_rows score_cols : ℕ) (scale : K) : Bool :=
  decide (((List.finRange 4).foldl (fun cnt i =>
    if corner_out res score_rows score_cols scale i then cnt + 1 else cnt) (0 : ℕ)) ≤ 1)

/-- Number of the 4 corners of `res` having some out-of-range component. -/
def out_of_range_corners (res : Fin 2 → Fin 4 → K) (score_rows score_cols : ℕ)
    (scale : K) : ℕ :=
  (List.finRange 4).countP (fun i => decide (corner_out res score_rows score_cols scale i))

/-- Stated from the claim's words: the number of the polygon's 8 coordinate
components lying outside the half-open ranges, x components `res[0,i]`
measured against `[0, score_cols*scale)` and y components `res[1,i]` against
`[0, score_rows*scale)`, each of the 8 components counted separately. -/
def claim_out_of_range_components (res : Fin 2 → Fin 4 → K) (score_rows score_cols : ℕ)
    (scale : K) : ℕ :=
  (List.finRange 4).countP (fun i => decide (res 0 i < 0 ∨ (score_cols : K) * scale ≤ res 0 i)) +
    (List.finRange 4).countP (fun i => decide (res 1 i < 0 ∨ (score_rows : K) * scale ≤ res 1 i))

/-- The polygon used as the concrete counterexample: corner 0 is `(-1, -1)`
(both components out of range), corners 1-3 are `(1, 1)`. -/
def c1_res : Fin 2 → Fin 4 → ℚ := fun _ j => if j = 0 then -1 else 1

end ValidityFilter

section RotationGeometry

variable {K : Type} [LinearOrderedField K]

/-- Embedding of `Get_Rotation_Matrix(angle)` (detect.py, lines 98-99):
`[[cos angle, -sin angle], [sin angle, cos angle]]`.  The math-library
cosine and sine are passed as the function parameters `cosF`, `sinF`. -/
def Get_Rotation_Matrix (cosF sinF : K → K) (angle : K) : Fin 2 → Fin 2 → K :=
  fun i j =>
    if i = 0 then (if j = 0 then cosF angle else -sinF angle)
    else (if j = 0 then sinF angle else cosF angle)

/-- numpy `np.dot` of a 2×2 matrix with a 2×4 matrix. -/
def np_dot24 (A : Fin 2 → Fin 2 → K) (B : Fin 2 → Fin 4 → K) : Fin 2 → Fin 4 → K :=
  fun i j => A i 0 * B 0 j + A i 1 * B 1 j

/-- numpy `np.dot` of two 2×2 matrices. -/
def np_dot22 (A B : Fin 2 → Fin 2 → K) : Fin 2 → Fin 2 → K :=
  fun i j => A i 0 * B 0 j + A i 1 * B 1 j

/-- Application of a 2×2 matrix to a column vector. -/
def np_matvec (A : Fin 2 → Fin 2 → K) (v : Fin 2 → K) : Fin 2 → K :=
  fun i => A i 0 * v 0 + A i 1 * v 1

end RotationGeometry

section PolygonRestorer

variable {K : Type} [LinearOrderedField K]

/-- Loop body of `restore_polys` for one position (detect.py, lines 118-131):
from the scaled center `(x, y)`, the four offsets `d0..d3` and the angle
`ang`, build `y_min = y - d0`, `y_max = y + d1`, `x_min = x - d2`,
`x_max = x + d3`, the centered corner matrix
`[[x_min, x_max, x_max, x_min] - x; [y_min, y_min, y_max, y_max] - y]`,
multiply it by `Get_Rotation_Matrix(-ang)` and add `x` back to row 0 and `y`
to row 1.  Returns the resulting 2×4 matrix `res`. -/
def restore_res (cosF sinF : K → K) (x y d0 d1 d2 d3 ang : K) : Fin 2 → Fin 4 → K :=
  let y_min := y - d0
  let y_max := y + d1
  let x_min := x - d2
  let x_max := x + d3
  let rotate_mat := Get_Rotation_Matrix cosF sinF (-ang)
  let temp_x : Fin 4 → K := fun j => (if j = 0 ∨ j = 3 then x_min else x_max) - x
  let temp_y : Fin 4 → K := fun j => (if j = 0 ∨ j = 1 then y_min else y_max) - y
  let coordidates : Fin 2 → Fin 4 → K := fun i j => if i = 0 then temp_x j else temp_y j
  let res0 := np_dot24 rotate_mat coordidates
  fun i j => res0 i j + (if i = 0 then x else y)

/-- The 8 scalars appended to `polys` for an accepted position (detect.py,
line 135): `[res[0,0], res[1,0], res[0,1], res[1,1], res[0,2], res[1,2],
res[0,3], res[1,3]]`. -/
def poly_of_res (res : Fin 2 → Fin 4 → K) : List K :=
  [res 0 0, res 1 0, res 0 1, res 1 1, res 0 2, res 1 2, res 0 3, res 1 3]

/-- Accumulator update of the `restore_polys` loop: when the step at index
`i` produces a (polygon, index) pair, append its components to the `polys`
and `index` accumulator lists (`polys.append(...)`, `index.append(i)`);
otherwise leave the accumulator unchanged. -/
def acc_append {α β : Type} (g : ℕ → Option (α × β)) (acc : List α × List β) (i : ℕ) :
    List α × List β :=
  match g i with
  | none => acc
  | some pi => (acc.1 ++ [pi.1], acc.2 ++ [pi.2])

/-- One iteration of the `restore_polys` loop at index `i`, over the already
scaled positions: `some (poly, i)` when the restored polygon at position `i`
passes `is_valid_poly`, and `none` otherwise. -/
def restore_step (cosF sinF : K → K) (scaled : List (K × K)) (valid_geo : ℕ → Fin 5 → K)
    (score_rows score_cols : ℕ) (scale : K) (i : ℕ) : Option (List K × ℕ) :=
  match scaled.get? i with
  | none => none
  | some xy =>
    let res := restore_res cosF sinF xy.1 xy.2 (valid_geo i 0) (valid_geo i 1)
      (valid_geo i 2) (valid_geo i 3) (valid_geo i 4)
    if is_valid_poly res score_rows score_cols scale then some (poly_of_res res, i) else none

/-- Embedding of `restore_polys(valid_pos, valid_geo, score_shape, scale)`
(detect.py, lines 101-136).  `valid_pos` is the n×2 list of `(x, y)`
positions, `valid_geo i j` the entry `valid_geo[j, i]` of the 5×n geometry
matrix.  The in-place numpy update `valid_pos *= scale` is modelled by the
scaled list, which the loop reads and which is returned as the third
component (the final contents of the caller's `valid_pos` buffer).  The loop
appends the 8-scalar polygon and the index `i` for every position whose
restored polygon passes `is_valid_poly`. -/
def restore_polys (cosF sinF : K → K) (valid_pos : List (K × K)) (valid_geo : ℕ → Fin 5 → K)
    (score_rows score_cols : ℕ) (scale : K) :
    List (List K) × List ℕ × List (K × K) :=
  let scaled := valid_pos.map (fun p => (p.1 * scale, p.2 * scale))
  let out := (List.range scaled.length).foldl
    (acc_append (restore_step cosF sinF scaled valid_geo score_rows score_cols scale)) ([], [])
  (out.1, out.2, scaled)

/-- The polygon `restore_polys` emits for position `i`, expressed directly in
terms of the unscaled input list `valid_pos`. -/
def restore_emit (cosF sinF : K → K) (valid_pos : List (K × K)) (valid_geo : ℕ → Fin 5 → K)
    (scale : K) (i : ℕ) : List K :=
  poly_of_res (restore_res cosF sinF ((valid_pos.getD i (0, 0)).1 * scale)
    ((valid_pos.getD i (0, 0)).2 * scale) (valid_geo i 0) (valid_geo i 1)
    (valid_geo i 2) (valid_geo i 3) (valid_geo i 4))

/-- Stated from the claim's words: one corner of the restored polygon, namely
the rotation matrix for the negated angle applied to the corner offset vector
`(cx - x, cy - y)`, with the center `(x, y)` added back. -/
def claim_corner (cosF sinF : K → K) (x y ang cx cy : K) : K × K :=
  (cosF (-ang) * (cx - x) + -sinF (-ang) * (cy - y) + x,
   sinF (-ang) * (cx - x) + cosF (-ang) * (cy - y) + y)

/-- Stated from the claim's words: the candidate polygon at a scaled center
`(x, y)` with geometry `d0..d3, ang`, as the 8 scalars
`[x1,y1,x2,y2,x3,y3,x4,y4]` of the rotated corners in the order
`(x_min,y_min), (x_max,y_min), (x_max,y_max), (x_min,y_max)`. -/
def claim_poly (cosF sinF : K → K) (x y d0 d1 d2 d3 ang : K) : List K :=
  let y_min := y - d0
  let y_max := y + d1
  let x_min := x - d2
  let x_max := x + d3
  let p1 := claim_corner cosF sinF x y ang x_min y_min
  let p2 := claim_corner cosF sinF x y ang x_max y_min
  let p3 := claim_corner cosF sinF x y ang x_max y_max
  let p4 := claim_corner cosF sinF x y ang x_min y_max
  [p1.1, p1.2, p2.1, p2.2, p3.1, p3.2, p4.1, p4.2]

end PolygonRestorer

section BoxAssembler

variable {K : Type} [LinearOrderedField K]

/-- Embedding of `np.argwhere(score > score_thresh)` on a 2D array of shape
`(score_rows, score_cols)`: the `(r, c)` pairs with `score r c > thresh`, in
row-major scan order. -/
def np_argwhere_gt (score_rows score_cols : ℕ) (score : ℕ → ℕ → K) (thresh : K) :
    List (ℕ × ℕ) :=
  (List.range score_rows).flatMap (fun r => (List.range score_cols).filterMap (fun c =>
    if thresh < score r c then some (r, c) else none))

/-- The 5×n geometry gather `geo[:, xy_text[:, 0], xy_text[:, 1]]` of
`get_boxes`, as a column-access function over the sorted coordinate list. -/
def gb_valid_geo (geo : Fin 5 → ℕ → ℕ → K) (sorted : List (ℕ × ℕ)) : ℕ → Fin 5 → K :=
  fun i j => geo j (sorted.getD i (0, 0)).1 (sorted.getD i (0, 0)).2

/-- The `restore_polys` call inside `get_boxes`: positions are the sorted
thresholded coordinates with their two columns reversed (`xy_text[:, ::-1]`),
geometry is gathered at those coordinates, and the scale is the default 4. -/
def gb_restored (cosF sinF : K → K) (sortFn : List (ℕ × ℕ) → List (ℕ × ℕ))
    (score_rows score_cols : ℕ) (score : ℕ → ℕ → K) (geo : Fin 5 → ℕ → ℕ → K)
    (score_thresh : K) : List (List K) × List ℕ × List (K × K) :=
  let sorted := sortFn (np_argwhere_gt score_rows score_cols score score_thresh)
  restore_polys cosF sinF (sorted.map (fun rc => ((rc.2 : K), (rc.1 : K))))
    (gb_valid_geo geo sorted) score_rows score_cols 4

/-- Embedding of `get_boxes(score, geo, score_thresh, nms_thresh)` (detect.py,
lines 160-187) after the `score[0,:,:]` squeeze.  `sortFn` models
`np.argsort` on the row column (an opaque reordering, since numpy's default
sort algorithm is external); `nmsFn` models the external
`lanms.merge_quadrangle_n9`.  Returns `none` when no pixel exceeds the
threshold or no restored polygon survives; otherwise builds the n×9 rows
(8 polygon scalars plus the score at the originating sorted coordinate),
applies `nmsFn`, and drops column 8 (`boxes[:, :8]`). -/
def get_boxes (cosF sinF : K → K) (sortFn : List (ℕ × ℕ) → List (ℕ × ℕ))
    (nmsFn : List (List K) → List (List K)) (score_rows score_cols : ℕ)
    (score : ℕ → ℕ → K) (geo : Fin 5 → ℕ → ℕ → K) (score_thresh : K) :
    Option (List (List K)) :=
  let xy_text := np_argwhere_gt score_rows score_cols score score_thresh
  if xy_text.length = 0 then none
  else
    let sorted := sortFn xy_text
    let r := restore_polys cosF sinF (sorted.map (fun rc => ((rc.2 : K), (rc.1 : K))))
      (gb_valid_geo geo sorted) score_rows score_cols 4
    if r.1.length = 0 then none
    else
      let boxes := (List.range r.1.length).map (fun k =>
        r.1.getD k [] ++ [score (sorted.getD (r.2.1.getD k 0) (0, 0)).1
          (sorted.getD (r.2.1.getD k 0) (0, 0)).2])
      some ((nmsFn boxes).map (fun b => b.take 8))

end BoxAssembler

section CoordinateRescaler

variable {K : Type} [LinearOrderedField K] [FloorRing K]

/-- Embedding of `np.around` on one scalar: round half to even (numpy's
rounding rule), expressed through the floor and the fractional part. -/
def np_around (x : K) : ℤ :=
  if x - (⌊x⌋ : K) < 1 / 2 then ⌊x⌋
  else if 1 / 2 < x - (⌊x⌋ : K) then ⌊x⌋ + 1
  else if Even ⌊x⌋ then ⌊x⌋ else ⌊x⌋ + 1

/-- The two in-place fancy-indexed updates of `adjust_ratio` on one row:
columns 0, 2, 4, 6 are divided by `ratio_w` and columns 1, 3, 5, 7 by
`ratio_h`; any other column is untouched. -/
def ar_divide_row (row : List K) (ratio_w ratio_h : K) : List K :=
  row.mapIdx (fun j v =>
    if j = 0 ∨ j = 2 ∨ j = 4 ∨ j = 6 then v / ratio_w
    else if j = 1 ∨ j = 3 ∨ j = 5 ∨ j = 7 then v / ratio_h
    else v)

/-- Embedding of `adjust_ratio(boxes, ratio_w, ratio_h)` (detect.py, lines
190-203).  The first component is the returned value: `none` for a `None` or
empty input, otherwise `np.around` of the divided rows.  The second component
is the final contents of the caller's `boxes` buffer, since the divisions
`boxes[:, [0,2,4,6]] /= ratio_w` and `boxes[:, [1,3,5,7]] /= ratio_h` are
in-place numpy updates (the early-return paths leave the buffer untouched). -/
def adjust_ratio (boxes : Option (List (List K))) (ratio_w ratio_h : K) :
    Option (List (List K)) × Option (List (List K)) :=
  match boxes with
  | none => (none, none)
  | some bs =>
    if bs.length = 0 then (none, some bs)
    else
      let divided := bs.map (fun row => ar_divide_row row ratio_w ratio_h)
      (some (divided.map (fun row => row.map (fun v => ((np_around v : ℤ) : K)))),
        some divided)

end CoordinateRescaler

section DetectionPipeline

/-- The attributes of a PIL image the detection pipeline observes: its height
and width.  Pixel contents live in the external PIL collaborator. -/
structure PILImage where
  height : ℕ
  width : ℕ
deriving DecidableEq

/-- Models the external `PIL.Image.resize((new_width, new_height),
Image.BILINEAR)`: the result has the requested dimensions. -/
def pil_resize (image : PILImage) (size : ℕ × ℕ) : PILImage :=
  { height := size.2, width := size.1 }

/-- Embedding of `resize_img(image)` (detect.py, lines 10-29): with
`new_dimensions = (126, 224)` it computes the height and width ratios, builds
`resized_image = image.resize((new_width, new_height), Image.BILINEAR)`, and
returns the triple `(image, ratio_height, ratio_width)` — note the first
component is the original `image`, exactly as in the source. -/
def resize_img (image : PILImage) : PILImage × ℚ × ℚ :=
  let new_dimensions : ℕ × ℕ := (126, 224)
  let new_height := new_dimensions.1
  let new_width := new_dimensions.2
  let ratio_height : ℚ := (new_height : ℚ) / (image.height : ℚ)
  let ratio_width : ℚ := (new_width : ℚ) / (image.width : ℚ)
  let resized_image := pil_resize image (new_width, new_height)
  let _ := resized_image
  (image, ratio_height, ratio_width)

/-- The image `detect` (detect.py, lines 222-235) hands to `load_pil` and the
model: the first component of `resize_img`. -/
def detect_model_input (img : PILImage) : PILImage :=
  (resize_img img).1

/-- Python `int()` on an exact value: truncation toward zero. -/
def py_int (q : ℚ) : ℤ :=
  if 0 ≤ q then ⌊q⌋ else ⌈q⌉

/-- The line `detect_dataset` (detect.py, line 266) writes for one box:
`','.join([str(int(b)) for b in box[:-1]]) + '\n'` — the box with its LAST
entry dropped, each remaining entry truncated to an integer and printed,
joined with commas, newline-terminated. -/
def detect_dataset_line (box : List ℚ) : String :=
  String.intercalate "," ((box.dropLast).map (fun b => toString (py_int b))) ++ "\n"

end DetectionPipeline

section Helpers

variable {K : Type} [LinearOrderedField K]

/-- A counting fold is an offset plus a `countP`. -/
theorem foldl_count_eq_countP {α : Type} (Q : α → Prop) [DecidablePred Q] :
    ∀ (l : List α) (n : ℕ),
      l.foldl (fun cnt a => if Q a then cnt + 1 else cnt) n
        = n + l.countP (fun a => decide (Q a))
  | [], n => by simp
  | a :: l, n => by
    rw [List.foldl_cons, List.countP_cons, foldl_count_eq_countP Q l]
    by_cases h : Q a
    · rw [if_pos h, if_pos (decide_eq_true h)]
      omega
    · rw [if_neg h, if_neg (fun hc => h (of_decide_eq_true hc))]
      omega

end Helpers

/-- C1 (counterexample): the claim's component-counting reading of
`is_valid_poly` fails on the code.  For the polygon whose corner 0 is
`(-1, -1)` and whose other corners are `(1, 1)`, with score-map shape
`(1, 1)` and scale 4, exactly 2 of the 8 coordinate components are out of
range — so the claim says the polygon is rejected — yet `is_valid_poly`
accepts it, because its loop counts offending corners (columns), not
components, and only corner 0 offends. -/
theorem c1_counterexample :
    is_valid_poly c1_res 1 1 (4 : ℚ) = true ∧
      ¬ claim_out_of_range_components c1_res 1 1 (4 : ℚ) ≤ 1 := by
  have hfin : List.finRange 4 = [0, 1, 2, 3] := by decide
  have h0 : ∀ i, c1_res i 0 = -1 := fun _ => rfl
  have h1 : ∀ i, c1_res i 1 = 1 := fun _ => rfl
  have h2 : ∀ i, c1_res i 2 = 1 := fun _ => rfl
  have h3 : ∀ i, c1_res i 3 = 1 := fun _ => rfl
  constructor
  · unfold is_valid_poly
    rw [decide_eq_true_iff, foldl_count_eq_countP, hfin]
    simp only [List.countP_cons, List.countP_nil, corner_out, h0, h1, h2, h3]
    norm_num
  · unfold claim_out_of_range_components
    rw [hfin]
    simp only [List.countP_cons, List.countP_nil, h0, h1, h2, h3]
    norm_num

/-- C1 (amended): for every restored polygon `res` (a 2×4 matrix), score-map
shape `(score_rows, score_cols)` and scale, `is_valid_poly` returns `true`
iff at most 1 of the polygon's 4 corners has a component outside the
half-open ranges — x components measured against `[0, score_cols*scale)` and
y components against `[0, score_rows*scale)`; a polygon with 2 or more such
corners is rejected.  (The loop counts corners, not the 8 components
individually: a single corner with both components out of range still counts
once.) -/
theorem c1_is_valid_poly_corner_count {K : Type} [LinearOrderedField K]
    (res : Fin 2 → Fin 4 → K) (score_rows score_cols : ℕ) (scale : K) :
    is_valid_poly res score_rows score_cols scale = true ↔
      out_of_range_corners res score_rows score_cols scale ≤ 1 := by
  unfold is_valid_poly out_of_range_corners
  rw [decide_eq_true_iff, foldl_count_eq_countP]
  simp

/-- C4 (code bug): `resize_img` computes the bilinear resize to the fixed
target dimensions (height 126, width 224) but returns the ORIGINAL image as
its first component, and `detect` passes exactly that first component to the
model; so for a 100×100 input the model receives the un-resized 100×100
image, not the 126×224 one the claim describes (the PIL resize itself would
have produced the 126×224 image). -/
theorem c4_resize_not_applied :
    detect_model_input ⟨100, 100⟩ = ⟨100, 100⟩ ∧
      (detect_model_input ⟨100, 100⟩).height ≠ 126 ∧
      (detect_model_input ⟨100, 100⟩).width ≠ 224 ∧
      pil_resize ⟨100, 100⟩ (224, 126) = ⟨126, 224⟩ := by
  refine ⟨rfl, by decide, by decide, rfl⟩

/-- C3 (code bug): the line `detect_dataset` writes for the 8-coordinate box
`[1,2,3,4,5,6,7,8]` (as produced by `adjust_ratio`, whose score column was
already dropped by `get_boxes`) is `"1,2,3,4,5,6,7\n"` — only 7
comma-separated fields, because `box[:-1]` drops the last coordinate `y4`,
not the score; the claim requires all 8 corner coordinates on the line. -/
theorem c3_line_truncates_y4 :
    detect_dataset_line [1, 2, 3, 4, 5, 6, 7, 8] = "1,2,3,4,5,6,7" ++ "\n" ∧
      ("1,2,3,4,5,6,7").data.count ',' = 6 ∧
      ("1,2,3,4,5,6,7,8").data.count ',' = 7 := by
  refine ⟨rfl, by decide, by decide⟩

section RestoreStructure

variable {K : Type} [LinearOrderedField K]

/-- The appending fold of `restore_polys` collects exactly the `filterMap` of
its step function, in order. -/
theorem foldl_acc_append {α β : Type} (g : ℕ → Option (α × β)) :
    ∀ (l : List ℕ) (acc : List α × List β),
      l.foldl (acc_append g) acc
        = (acc.1 ++ (l.filterMap g).map Prod.fst, acc.2 ++ (l.filterMap g).map Prod.snd)
  | [], acc => by simp
  | a :: l, acc => by
    rw [List.foldl_cons, foldl_acc_append g l]
    cases hga : g a with
    | none => simp [acc_append, hga, List.filterMap_cons]
    | some pr => simp [acc_append, hga, List.filterMap_cons]

/-- Closed form of `restore_polys`: the polygons and indices are the two
projections of the `filterMap` of `restore_step` over the position range, and
the final `valid_pos` buffer is the scaled position list. -/
theorem restore_polys_eq (cosF sinF : K → K) (valid_pos : List (K × K))
    (valid_geo : ℕ → Fin 5 → K) (score_rows score_cols : ℕ) (scale : K) :
    restore_polys cosF sinF valid_pos valid_geo score_rows score_cols scale =
      (((List.range valid_pos.length).filterMap
          (restore_step cosF sinF (valid_pos.map (fun p => (p.1 * scale, p.2 * scale)))
            valid_geo score_rows score_cols scale)).map Prod.fst,
        ((List.range valid_pos.length).filterMap
          (restore_step cosF sinF (valid_pos.map (fun p => (p.1 * scale, p.2 * scale)))
            valid_geo score_rows score_cols scale)).map Prod.snd,
        valid_pos.map (fun p => (p.1 * scale, p.2 * scale))) := by
  unfold restore_polys
  simp only [foldl_acc_append, List.length_map, List.nil_append]

/-- A successful `restore_step` over the scaled positions returns the emitted
polygon of `restore_emit` paired with its own index. -/
theorem restore_step_eq_some {cosF sinF : K → K} {valid_pos : List (K × K)}
    {valid_geo : ℕ → Fin 5 → K} {score_rows score_cols : ℕ} {scale : K} {i : ℕ}
    {pr : List K × ℕ}
    (h : restore_step cosF sinF (valid_pos.map (fun p => (p.1 * scale, p.2 * scale)))
      valid_geo score_rows score_cols scale i = some pr) :
    pr = (restore_emit cosF sinF valid_pos valid_geo scale i, i) := by
  unfold restore_step at h
  cases hg : (valid_pos.map (fun p => (p.1 * scale, p.2 * scale))).get? i with
  | none => rw [hg] at h; exact absurd h (by simp)
  | some xy =>
    rw [hg] at h
    rw [List.get?_map] at hg
    cases hp : valid_pos.get? i with
    | none => rw [hp] at hg; exact absurd hg (by simp)
    | some p =>
      rw [hp] at hg
      have hxy : xy = (p.1 * scale, p.2 * scale) := by
        simpa using hg.symm
      have hgetD : valid_pos.getD i (0, 0) = p := by
        rw [List.getD_eq_getD_get?, hp]; rfl
      simp only [] at h
      split at h
      · have hpr := (Option.some_injective _ h).symm
        rw [hpr]
        unfold restore_emit
        rw [hgetD, hxy]
      · exact absurd h (by simp)

/-- Every step of `restore_polys` records its own loop index as the second
component. -/
theorem restore_step_snd {cosF sinF : K → K} {scaled : List (K × K)}
    {valid_geo : ℕ → Fin 5 → K} {score_rows score_cols : ℕ} {scale : K} {i : ℕ}
    {pr : List K × ℕ}
    (h : restore_step cosF sinF scaled valid_geo score_rows score_cols scale i = some pr) :
    pr.2 = i := by
  unfold restore_step at h
  cases hg : scaled.get? i with
  | none => rw [hg] at h; exact absurd h (by simp)
  | some xy =>
    rw [hg] at h
    simp only [] at h
    split at h
    · rw [← Option.some_injective _ h]
    · exact absurd h (by simp)

/-- The second projection of the collected steps is the filter of the index
list by step success. -/
theorem filterMap_map_snd {α : Type} (g : ℕ → Option (α × ℕ))
    (hg : ∀ i pr, g i = some pr → pr.2 = i) :
    ∀ l : List ℕ, (l.filterMap g).map Prod.snd = l.filter (fun i => (g i).isSome)
  | [] => by simp
  | a :: l => by
    cases hga : g a with
    | none => simp [List.filterMap_cons, hga, List.filter_cons, filterMap_map_snd g hg l]
    | some pr =>
      simp [List.filterMap_cons, hga, List.filter_cons, hg a pr hga, filterMap_map_snd g hg l]

end RestoreStructure

/-- C2 (confirmed): for every input, the candidate polygon `restore_polys`
computes — from the scaled center `(x, y)`, the pre-rotation corners
`y_min = y - d0`, `y_max = y + d1`, `x_min = x - d2`, `x_max = x + d3`, the
rotation matrix for the negated angle applied to the corner offset vectors
with `(x, y)` added back — equals the claim's formula `claim_poly`, with the
8 scalars in corner order `[x1,y1,x2,y2,x3,y3,x4,y4]` for the corners
`(x_min,y_min), (x_max,y_min), (x_max,y_max), (x_min,y_max)`; moreover the
emitted `polys` list pairs each surviving index `i` with exactly the claim's
formula evaluated at position `i`'s scaled center and geometry channels. -/
theorem c2_restore_polys_formula {K : Type} [LinearOrderedField K] (cosF sinF : K → K)
    (valid_pos : List (K × K)) (valid_geo : ℕ → Fin 5 → K) (score_rows score_cols : ℕ)
    (scale : K) :
    (∀ x y d0 d1 d2 d3 ang : K,
      poly_of_res (restore_res cosF sinF x y d0 d1 d2 d3 ang)
        = claim_poly cosF sinF x y d0 d1 d2 d3 ang) ∧
    (restore_polys cosF sinF valid_pos valid_geo score_rows score_cols scale).1
      = ((restore_polys cosF sinF valid_pos valid_geo score_rows score_cols scale).2.1).map
          (fun i => claim_poly cosF sinF ((valid_pos.getD i (0, 0)).1 * scale)
            ((valid_pos.getD i (0, 0)).2 * scale) (valid_geo i 0) (valid_geo i 1)
            (valid_geo i 2) (valid_geo i 3) (valid_geo i 4)) := by
  have hpt : ∀ x y d0 d1 d2 d3 ang : K,
      poly_of_res (restore_res cosF sinF x y d0 d1 d2 d3 ang)
        = claim_poly cosF sinF x y d0 d1 d2 d3 ang := fun _ _ _ _ _ _ _ => rfl
  refine ⟨hpt, ?_⟩
  rw [restore_polys_eq]
  simp only [List.map_map]
  apply List.map_congr_left
  intro pr hpr
  obtain ⟨i, _, hgi⟩ := List.mem_filterMap.1 hpr
  rw [restore_step_eq_some hgi]
  simp only [Function.comp_apply]
  unfold restore_emit
  exact hpt _ _ _ _ _ _ _

/-- C7 (confirmed): `Get_Rotation_Matrix` instantiated with the real cosine
and sine has entries `[[cos θ, -sin θ], [sin θ, cos θ]]`; composing the
matrices for `θ` and `-θ` (in either matrix-product or matrix-vector form)
gives the identity, so applying `Get_Rotation_Matrix θ` to the centered
corner offsets that `restore_polys` produced by rotating with `-θ`
reproduces the original axis-aligned offsets — stated both for an arbitrary
offset vector `v` and directly for the centered columns of `restore_res`. -/
theorem c7_rotation_inverse :
    (∀ θ : ℝ, Get_Rotation_Matrix Real.cos Real.sin θ 0 0 = Real.cos θ ∧
      Get_Rotation_Matrix Real.cos Real.sin θ 0 1 = -Real.sin θ ∧
      Get_Rotation_Matrix Real.cos Real.sin θ 1 0 = Real.sin θ ∧
      Get_Rotation_Matrix Real.cos Real.sin θ 1 1 = Real.cos θ) ∧
    (∀ θ : ℝ, np_dot22 (Get_Rotation_Matrix Real.cos Real.sin θ)
        (Get_Rotation_Matrix Real.cos Real.sin (-θ))
      = fun i j => if i = j then 1 else 0) ∧
    (∀ (θ : ℝ) (v : Fin 2 → ℝ),
      np_matvec (Get_Rotation_Matrix Real.cos Real.sin θ)
        (np_matvec (Get_Rotation_Matrix Real.cos Real.sin (-θ)) v) = v) ∧
    (∀ (x y d0 d1 d2 d3 θ : ℝ) (j : Fin 4),
      np_matvec (Get_Rotation_Matrix Real.cos Real.sin θ)
        (fun i => restore_res Real.cos Real.sin x y d0 d1 d2 d3 θ i j
          - (if i = 0 then x else y))
      = fun i => if i = 0 then (if j = 0 ∨ j = 3 then x - d2 else x + d3) - x
          else (if j = 0 ∨ j = 1 then y - d0 else y + d1) - y) := by
  have hmv : ∀ (θ : ℝ) (v : Fin 2 → ℝ),
      np_matvec (Get_Rotation_Matrix Real.cos Real.sin θ)
        (np_matvec (Get_Rotation_Matrix Real.cos Real.sin (-θ)) v) = v := by
    intro θ v
    funext i
    fin_cases i
    · show Real.cos θ * (Real.cos (-θ) * v 0 + -Real.sin (-θ) * v 1)
          + -Real.sin θ * (Real.sin (-θ) * v 0 + Real.cos (-θ) * v 1) = v 0
      rw [Real.cos_neg, Real.sin_neg]
      linear_combination v 0 * Real.sin_sq_add_cos_sq θ
    · show Real.sin θ * (Real.cos (-θ) * v 0 + -Real.sin (-θ) * v 1)
          + Real.cos θ * (Real.sin (-θ) * v 0 + Real.cos (-θ) * v 1) = v 1
      rw [Real.cos_neg, Real.sin_neg]
      linear_combination v 1 * Real.sin_sq_add_cos_sq θ
  refine ⟨fun θ => ⟨rfl, rfl, rfl, rfl⟩, ?_, hmv, ?_⟩
  · intro θ
    funext i j
    fin_cases i <;> fin_cases j
    · show Real.cos θ * Real.cos (-θ) + -Real.sin θ * Real.sin (-θ) = 1
      rw [Real.cos_neg, Real.sin_neg]
      linear_combination Real.sin_sq_add_cos_sq θ
    · show Real.cos θ * -Real.sin (-θ) + -Real.sin θ * Real.cos (-θ) = 0
      rw [Real.cos_neg, Real.sin_neg]
      ring
    · show Real.sin θ * Real.cos (-θ) + Real.cos θ * Real.sin (-θ) = 0
      rw [Real.cos_neg, Real.sin_neg]
      ring
    · show Real.sin θ * -Real.sin (-θ) + Real.cos θ * Real.cos (-θ) = 1
      rw [Real.cos_neg, Real.sin_neg]
      linear_combination Real.sin_sq_add_cos_sq θ
  · intro x y d0 d1 d2 d3 θ j
    have hcol : (fun i => restore_res Real.cos Real.sin x y d0 d1 d2 d3 θ i j
        - (if i = 0 then x else y))
      = np_matvec (Get_Rotation_Matrix Real.cos Real.sin (-θ))
          (fun i => if i = 0 then (if j = 0 ∨ j = 3 then (x - d2) else (x + d3)) - x
            else (if j = 0 ∨ j = 1 then (y - d0) else (y + d1)) - y) := by
      funext i
      fin_cases i
      · show Real.cos (-θ) * ((if j = 0 ∨ j = 3 then x - d2 else x + d3) - x)
            + -Real.sin (-θ) * ((if j = 0 ∨ j = 1 then y - d0 else y + d1) - y) + x - x
          = Real.cos (-θ) * ((if j = 0 ∨ j = 3 then x - d2 else x + d3) - x)
            + -Real.sin (-θ) * ((if j = 0 ∨ j = 1 then y - d0 else y + d1) - y)
        ring
      · show Real.sin (-θ) * ((if j = 0 ∨ j = 3 then x - d2 else x + d3) - x)
            + Real.cos (-θ) * ((if j = 0 ∨ j = 1 then y - d0 else y + d1) - y) + y - y
          = Real.sin (-θ) * ((if j = 0 ∨ j = 3 then x - d2 else x + d3) - x)
            + Real.cos (-θ) * ((if j = 0 ∨ j = 1 then y - d0 else y + d1) - y)
        ring
    rw [hcol, hmv θ]

/-- The concrete position list witnessing the in-place scaling. -/
def c8_pos : List (ℚ × ℚ) := [(1, 1)]

/-- The concrete box array witnessing the in-place division. -/
def c8_boxes : List (List ℚ) := [[2, 2, 2, 2, 2, 2, 2, 2]]

/-- C8 (counterexample): both claimed non-mutations fail on the code.  After
`restore_polys` runs on the position list `[(1, 1)]` with scale 4, the
caller's `valid_pos` buffer holds `[(4, 4)]` (the numpy in-place update
`valid_pos *= scale`), not the original list; and after `adjust_ratio` runs
on the box array `[[2,...,2]]` with ratios 2, the caller's `boxes` buffer
holds the divided values `[[1,...,1]]` (the in-place `boxes[...] /= ratio`),
not the original array. -/
theorem c8_counterexample :
    (restore_polys (fun _ => (1 : ℚ)) (fun _ => 0) c8_pos (fun _ _ => 0) 1 1 4).2.2 ≠ c8_pos ∧
      (adjust_ratio (some c8_boxes) (2 : ℚ) 2).2 ≠ some c8_boxes := by
  constructor
  · intro h
    simp [restore_polys, c8_pos] at h
  · intro h
    have h2 := congrArg (fun o => ((o.getD []).headD []).headD 0) h
    simp [adjust_ratio, c8_boxes, ar_divide_row] at h2

/-- C8 (amended): the pipeline stages do mutate the arrays handed to them,
in a single specific way each — `restore_polys` scales both columns of its
`valid_pos` argument in place by the scale factor, and `adjust_ratio`
divides the coordinate columns of its (non-null, non-empty) `boxes` argument
in place by the ratios, leaving the buffer holding the divided, un-rounded
values; the `None` and empty early returns of `adjust_ratio` leave their
argument untouched. -/
theorem c8_inplace_updates {K : Type} [LinearOrderedField K] [FloorRing K]
    (cosF sinF : K → K) (valid_pos : List (K × K)) (valid_geo : ℕ → Fin 5 → K)
    (score_rows score_cols : ℕ) (scale : K) (bs : List (List K)) (ratio_w ratio_h : K) :
    (restore_polys cosF sinF valid_pos valid_geo score_rows score_cols scale).2.2
        = valid_pos.map (fun p => (p.1 * scale, p.2 * scale)) ∧
      (adjust_ratio (some bs) ratio_w ratio_h).2
        = some (if bs.length = 0 then bs
            else bs.map (fun row => ar_divide_row row ratio_w ratio_h)) ∧
      (adjust_ratio (none : Option (List (List K))) ratio_w ratio_h).2 = none := by
  refine ⟨rfl, ?_, rfl⟩
  unfold adjust_ratio
  by_cases h : bs.length = 0
  · simp [h]
  · simp [h]

/-- C10 (confirmed): for every input, `restore_polys` returns index and
polygon lists of equal length, the index list is strictly increasing and all
its entries are below the number of input positions, and the polygon at slot
`k` is exactly the one restored from position `index[k]`; consequently,
inside `get_boxes` every index produced by the `restore_polys` call is below
the length of the sorted coordinate list, so the confidence lookup
`score[xy_text[index, 0], xy_text[index, 1]]` stays in bounds and each
assembled box row is paired with the score of its originating pixel. -/
theorem c10_restore_polys_index_sound {K : Type} [LinearOrderedField K] (cosF sinF : K → K)
    (valid_pos : List (K × K)) (valid_geo : ℕ → Fin 5 → K) (score_rows score_cols : ℕ)
    (scale : K) (sortFn : List (ℕ × ℕ) → List (ℕ × ℕ)) (score : ℕ → ℕ → K)
    (geo : Fin 5 → ℕ → ℕ → K) (score_thresh : K) :
    (restore_polys cosF sinF valid_pos valid_geo score_rows score_cols scale).1.length
        = (restore_polys cosF sinF valid_pos valid_geo score_rows score_cols scale).2.1.length ∧
      List.Pairwise (fun a b => a < b)
        (restore_polys cosF sinF valid_pos valid_geo score_rows score_cols scale).2.1 ∧
      (∀ i ∈ (restore_polys cosF sinF valid_pos valid_geo score_rows score_cols scale).2.1,
        i < valid_pos.length) ∧
      (∀ k : ℕ,
        (restore_polys cosF sinF valid_pos valid_geo score_rows score_cols scale).1.get? k
          = ((restore_polys cosF sinF valid_pos valid_geo score_rows score_cols scale).2.1.get?
              k).map (restore_emit cosF sinF valid_pos valid_geo scale)) ∧
      (∀ i ∈ (gb_restored cosF sinF sortFn score_rows score_cols score geo score_thresh).2.1,
        i < (sortFn (np_argwhere_gt score_rows score_cols score score_thresh)).length) := by
  have hsnd : ∀ (pos : List (K × K)) (vgeo : ℕ → Fin 5 → K) (r c : ℕ) (s : K),
      (restore_polys cosF sinF pos vgeo r c s).2.1
        = (List.range pos.length).filter (fun i =>
            (restore_step cosF sinF (pos.map (fun p => (p.1 * s, p.2 * s))) vgeo r c s
              i).isSome) := by
    intro pos vgeo r c s
    rw [restore_polys_eq]
    exact filterMap_map_snd _ (fun i pr h => restore_step_snd h) _
  have hmem : ∀ (pos : List (K × K)) (vgeo : ℕ → Fin 5 → K) (r c : ℕ) (s : K),
      ∀ i ∈ (restore_polys cosF sinF pos vgeo r c s).2.1, i < pos.length := by
    intro pos vgeo r c s i hi
    rw [hsnd] at hi
    exact List.mem_range.1 (List.mem_filter.1 hi).1
  refine ⟨?_, ?_, hmem _ _ _ _ _, ?_, ?_⟩
  · rw [restore_polys_eq]
    simp
  · rw [hsnd]
    exact List.Pairwise.sublist (List.filter_sublist _) (List.pairwise_lt_range _)
  · intro k
    rw [restore_polys_eq]
    simp only [List.get?_map]
    cases hk : (List.filterMap (restore_step cosF sinF
        (valid_pos.map (fun p => (p.1 * scale, p.2 * scale))) valid_geo score_rows score_cols
        scale) (List.range valid_pos.length)).get? k with
    | none => simp
    | some pr =>
      obtain ⟨i, _, hgi⟩ := List.mem_filterMap.1 (List.get?_mem hk)
      rw [restore_step_eq_some hgi]
      simp
  · intro i hi
    unfold gb_restored at hi
    have := hmem _ _ _ _ _ i hi
    simpa using this

/-- C5 (confirmed): when no score-map pixel strictly exceeds the threshold,
or when the `restore_polys` call inside `get_boxes` leaves no surviving
polygon, `get_boxes` returns the null result `none`; and `adjust_ratio`
returns `none` on that null result, on `none`, and on an empty box array —
so "no detections" propagates unchanged through the rescaling stage. -/
theorem c5_no_detections_propagate {K : Type} [LinearOrderedField K] [FloorRing K]
    (cosF sinF : K → K) (sortFn : List (ℕ × ℕ) → List (ℕ × ℕ))
    (nmsFn : List (List K) → List (List K)) (score_rows score_cols : ℕ)
    (score : ℕ → ℕ → K) (geo : Fin 5 → ℕ → ℕ → K) (score_thresh ratio_w ratio_h : K)
    (h : (∀ r, r < score_rows → ∀ c, c < score_cols → score r c ≤ score_thresh) ∨
      (gb_restored cosF sinF sortFn score_rows score_cols score geo score_thresh).1 = []) :
    get_boxes cosF sinF sortFn nmsFn score_rows score_cols score geo score_thresh = none ∧
      (adjust_ratio (get_boxes cosF sinF sortFn nmsFn score_rows score_cols score geo
        score_thresh) ratio_w ratio_h).1 = none ∧
      (adjust_ratio (none : Option (List (List K))) ratio_w ratio_h).1 = none ∧
      (adjust_ratio (some ([] : List (List K))) ratio_w ratio_h).1 = none := by
  have hgb : get_boxes cosF sinF sortFn nmsFn score_rows score_cols score geo
      score_thresh = none := by
    rcases h with h | h
    · have hempty : np_argwhere_gt score_rows score_cols score score_thresh = [] := by
        unfold np_argwhere_gt
        rw [List.flatMap_eq_nil_iff]
        intro r hr
        rw [List.filterMap_eq_nil]
        intro c hc
        rw [if_neg]
        exact not_lt.2 (h r (List.mem_range.1 hr) c (List.mem_range.1 hc))
      unfold get_boxes
      rw [hempty]
      simp
    · unfold gb_restored at h
      unfold get_boxes
      by_cases hxy : (np_argwhere_gt score_rows score_cols score score_thresh).length = 0
      · simp [hxy]
      · simp only [hxy, if_false, h, List.length_nil, if_true]
  refine ⟨hgb, ?_, rfl, ?_⟩
  · rw [hgb]
    rfl
  · unfold adjust_ratio
    simp

/-- C5 (witness): the hypotheses of `c5_no_detections_propagate` hold at the
all-zero 1×1 score map with threshold 1 over ℚ, and the conclusion follows
by the theorem. -/
theorem c5_witness :
    ((∀ r, r < 1 → ∀ c, c < 1 → (fun _ _ => (0 : ℚ)) r c ≤ (1 : ℚ)) ∨
      (gb_restored (fun _ => (0 : ℚ)) (fun _ => 0) id 1 1 (fun _ _ => 0) (fun _ _ _ => 0)
        1).1 = []) ∧
    (get_boxes (fun _ => (0 : ℚ)) (fun _ => 0) id id 1 1 (fun _ _ => 0) (fun _ _ _ => 0)
        1 = none ∧
      (adjust_ratio (get_boxes (fun _ => (0 : ℚ)) (fun _ => 0) id id 1 1 (fun _ _ => 0)
        (fun _ _ _ => 0) 1) 1 1).1 = none ∧
      (adjust_ratio (none : Option (List (List ℚ))) 1 1).1 = none ∧
      (adjust_ratio (some ([] : List (List ℚ))) 1 1).1 = none) :=
  ⟨Or.inl (fun _ _ _ _ => by norm_num),
    c5_no_detections_propagate (fun _ => (0 : ℚ)) (fun _ => 0) id id 1 1 (fun _ _ => 0)
      (fun _ _ _ => 0) 1 1 1 (Or.inl (fun _ _ _ _ => by norm_num))⟩

section RoundingLemmas

variable {K : Type} [LinearOrderedField K] [FloorRing K]

/-- Two indexed maps agree when their functions agree below the length. -/
theorem mapIdx_congr_lt {α β : Type} :
    ∀ (l : List α) (f g : ℕ → α → β),
      (∀ j, j < l.length → ∀ a, f j a = g j a) → l.mapIdx f = l.mapIdx g
  | [], _, _, _ => rfl
  | a :: l, f, g, h => by
    rw [List.mapIdx_cons, List.mapIdx_cons, h 0 (by simp) a,
      mapIdx_congr_lt l (fun i => f (i + 1)) (fun i => g (i + 1))
        (fun j hj b => h (j + 1) (by simpa using hj) b)]

/-- Mapping over an indexed map composes the functions. -/
theorem map_mapIdx_comp {α β γ : Type} :
    ∀ (l : List α) (f : ℕ → α → β) (g : β → γ),
      (l.mapIdx f).map g = l.mapIdx (fun i a => g (f i a))
  | [], _, _ => rfl
  | a :: l, f, g => by
    rw [List.mapIdx_cons, List.map_cons, List.mapIdx_cons,
      map_mapIdx_comp l (fun i => f (i + 1)) g]

/-- An indexed map with the identity at every index is the identity. -/
theorem mapIdx_ident {α : Type} :
    ∀ (l : List α), l.mapIdx (fun _ a => a) = l
  | [] => rfl
  | a :: l => by rw [List.mapIdx_cons, mapIdx_ident l]

/-- `np_around` leaves an exact integer unchanged. -/
theorem np_around_intCast (m : ℤ) : np_around ((m : K)) = m := by
  unfold np_around
  rw [Int.floor_intCast, sub_self, if_pos]
  norm_num

/-- `np_around` rounds to a nearest integer: the rounded value differs from
its input by at most one half. -/
theorem np_around_nearest (x : K) : |((np_around x : ℤ) : K) - x| ≤ 1 / 2 := by
  have h0 : (0 : K) ≤ x - (⌊x⌋ : K) := sub_nonneg.2 (Int.floor_le x)
  have h1 : x - (⌊x⌋ : K) < 1 := by
    have := Int.lt_floor_add_one x
    linarith
  unfold np_around
  by_cases hlt : x - (⌊x⌋ : K) < 1 / 2
  · rw [if_pos hlt, abs_le]
    constructor <;> linarith
  · rw [if_neg hlt]
    by_cases hgt : 1 / 2 < x - (⌊x⌋ : K)
    · rw [if_pos hgt, abs_le]
      push_cast
      constructor <;> linarith
    · rw [if_neg hgt]
      have heq : x - (⌊x⌋ : K) = 1 / 2 := le_antisymm (not_lt.1 hgt) (not_lt.1 hlt)
      by_cases hev : Even ⌊x⌋
      · rw [if_pos hev, abs_le]
        constructor <;> linarith
      · rw [if_neg hev, abs_le]
        push_cast
        constructor <;> linarith

end RoundingLemmas

/-- C6 (confirmed): on a non-null, non-empty box array of 8-column rows,
`adjust_ratio` returns exactly the array whose entry at even column `j` is
`np.around` of the input entry divided by `ratio_w` and at odd column `j` is
`np.around` of the entry divided by `ratio_h`; `np_around` always lands on
an integer within one half of its input (round to nearest); and with both
ratios 1 an integer-valued box array is returned unchanged. -/
theorem c6_adjust_ratio_rounds {K : Type} [LinearOrderedField K] [FloorRing K]
    (bs : List (List K)) (ratio_w ratio_h : K) (hne : bs ≠ [])
    (h8 : ∀ row ∈ bs, row.length = 8) :
    (adjust_ratio (some bs) ratio_w ratio_h).1
        = some (bs.map (fun row => row.mapIdx (fun j v =>
            ((np_around (v / (if j % 2 = 0 then ratio_w else ratio_h)) : ℤ) : K)))) ∧
      (∀ v : K, |((np_around v : ℤ) : K) - v| ≤ 1 / 2) ∧
      (ratio_w = 1 → ratio_h = 1 →
        (∀ row ∈ bs, ∀ v ∈ row, ∃ m : ℤ, v = (m : K)) →
        (adjust_ratio (some bs) ratio_w ratio_h).1 = some bs) := by
  have hlen : ¬ bs.length = 0 := fun h => hne (List.length_eq_zero.1 h)
  refine ⟨?_, fun v => np_around_nearest v, ?_⟩
  · unfold adjust_ratio
    simp only [if_neg hlen, List.map_map]
    refine congrArg some (List.map_congr_left ?_)
    intro row hrow
    simp only [Function.comp_apply]
    unfold ar_divide_row
    rw [map_mapIdx_comp]
    refine mapIdx_congr_lt row _ _ ?_
    intro j hj a
    rw [h8 row hrow] at hj
    interval_cases j <;> norm_num
  · intro hw hh hint
    unfold adjust_ratio
    simp only [if_neg hlen, hw, hh]
    have hrow : ∀ row ∈ bs,
        (ar_divide_row row (1 : K) 1).map (fun v => ((np_around v : ℤ) : K)) = row := by
      intro row hrow
      have hdiv : ar_divide_row row (1 : K) 1 = row := by
        unfold ar_divide_row
        have := mapIdx_congr_lt row
          (fun j v => if j = 0 ∨ j = 2 ∨ j = 4 ∨ j = 6 then v / 1
            else if j = 1 ∨ j = 3 ∨ j = 5 ∨ j = 7 then v / 1 else v)
          (fun _ v => v) (fun j _ a => by simp)
        rw [this, mapIdx_ident]
      rw [hdiv]
      have : ∀ v ∈ row, ((np_around v : ℤ) : K) = id v := by
        intro v hv
        obtain ⟨m, hm⟩ := hint row hrow v hv
        rw [hm, np_around_intCast]
        rfl
      rw [List.map_congr_left this, List.map_id]
    rw [List.map_map]
    refine congrArg some ?_
    have : ∀ row ∈ bs,
        ((fun r => List.map (fun v => ((np_around v : ℤ) : K)) r) ∘
          (fun row => ar_divide_row row 1 1)) row = id row := by
      intro row hr
      simp only [Function.comp_apply, id]
      exact hrow row hr
    rw [List.map_congr_left this, List.map_id]

/-- C6 (witness): the hypotheses of `c6_adjust_ratio_rounds` hold at the
concrete integer box array `[[1,…,8]]` over ℚ with both ratios 1, and the
conclusion follows by the theorem. -/
theorem c6_witness :
    (([[1, 2, 3, 4, 5, 6, 7, 8]] : List (List ℚ)) ≠ [] ∧
      (∀ row ∈ ([[1, 2, 3, 4, 5, 6, 7, 8]] : List (List ℚ)), row.length = 8)) ∧
      ((adjust_ratio (some ([[1, 2, 3, 4, 5, 6, 7, 8]] : List (List ℚ))) 1 1).1
          = some (([[1, 2, 3, 4, 5, 6, 7, 8]] : List (List ℚ)).map (fun row =>
              row.mapIdx (fun j v =>
                ((np_around (v / (if j % 2 = 0 then (1 : ℚ) else 1)) : ℤ) : ℚ)))) ∧
        (∀ v : ℚ, |((np_around v : ℤ) : ℚ) - v| ≤ 1 / 2) ∧
        ((1 : ℚ) = 1 → (1 : ℚ) = 1 →
          (∀ row ∈ ([[1, 2, 3, 4, 5, 6, 7, 8]] : List (List ℚ)), ∀ v ∈ row,
            ∃ m : ℤ, v = (m : ℚ)) →
          (adjust_ratio (some ([[1, 2, 3, 4, 5, 6, 7, 8]] : List (List ℚ))) 1 1).1
            = some ([[1, 2, 3, 4, 5, 6, 7, 8]] : List (List ℚ)))) :=
  ⟨⟨by simp, fun row h => by rw [List.mem_singleton] at h; rw [h]; rfl⟩,
    c6_adjust_ratio_rounds [[1, 2, 3, 4, 5, 6, 7, 8]] 1 1 (by simp)
      (fun row h => by rw [List.mem_singleton] at h; rw [h]; rfl)⟩
